import Mathlib

/-!
Shallow embedding of `src/catchAsync.ts` (handler-wrapping and error-funneling
layer of the Hiprax/errors package) and proofs about it.

The embedding models:
* the JavaScript values the wrapper inspects (`JSVal`),
* one invocation of the wrapped handler produced by `wrapHandler`
  (`wrappedNext`, `syncPhase`, `settlePhase`, `runInvocation`,
  `wrappedHandlerCall`),
* two interleaved invocations of the same wrapped handler sharing the
  closure variable `hasCalledNext` exactly as the source does
  (`runInterleaved`),
* the name/arity metadata `wrapHandler` installs (`wrapHandlerMeta`),
* the per-level member processing and the prototype-chain traversal of
  `wrapControllerClass` (`processProps`, `processChain`, `wrapBundle`),
* the dual-mode dispatch of `catchAsync` (`catchAsyncDispatch`).
-/

namespace CatchAsync

/-- JavaScript runtime values, as far as `catchAsync.ts` inspects them:
an `Error` object carrying a message, a string, a number, a boolean,
`null` and `undefined`. -/
inductive JSVal where
  | vError (msg : String)
  | vStr (s : String)
  | vNum (n : Int)
  | vBool (b : Bool)
  | vNull
  | vUndef
  deriving DecidableEq

/-- The `err instanceof Error` test (lines 110 and 124 of catchAsync.ts). -/
def isErrorVal : JSVal → Bool
  | .vError _ => true
  | _ => false

/-- JavaScript `String(v)` coercion, restricted to the modelled values
(`String(new Error(m))` is `"Error: " ++ m`). -/
def jsString : JSVal → String
  | .vError m => "Error: " ++ m
  | .vStr s => s
  | .vNum n => toString n
  | .vBool b => if b then "true" else "false"
  | .vNull => "null"
  | .vUndef => "undefined"

/-- Normalization done in the promise `.catch` branch (lines 109-112):
an `Error` passes through unchanged, anything else is wrapped into an
`Error` whose message contains the stringified value. -/
def normalizeAsync (v : JSVal) : JSVal :=
  if isErrorVal v then v else .vError ("Non-Error thrown/rejected: " ++ jsString v)

/-- Normalization done in the synchronous `catch` block (lines 123-126). -/
def normalizeSync (v : JSVal) : JSVal :=
  if isErrorVal v then v else .vError ("Non-Error thrown synchronously: " ++ jsString v)

/-- Eventual outcome of a JavaScript promise. -/
inductive PromiseOutcome where
  | fulfilled (v : JSVal)
  | rejected (v : JSVal)
  deriving DecidableEq

/-- How the original handler's synchronous execution ends: a non-promise
return value, a returned promise with a given eventual outcome, or a
synchronous throw. -/
inductive SyncOutcome where
  | retVal (v : JSVal)
  | retPromise (p : PromiseOutcome)
  | throws (v : JSVal)
  deriving DecidableEq

/-- Behaviour of the original handler during one invocation: the argument
lists of the explicit `next(...)` calls it makes synchronously, in order,
followed by how its synchronous execution ends. -/
structure Invocation where
  nextCalls : List (List JSVal)
  outcome : SyncOutcome
  deriving DecidableEq

/-- One call of `wrappedNext` (lines 87-98): given the current value of
`hasCalledNext` and the call's arguments, returns the new flag value, the
calls forwarded to the original `next` (none when dropped) and the number
of duplicate-call warnings emitted. -/
def wrappedNext (flag : Bool) (args : List JSVal) :
    Bool × List (List JSVal) × Nat :=
  if flag then (flag, [], 1) else (true, [args], 0)

/-- Runs a list of explicit `next(...)` calls through `wrappedNext`,
threading the `hasCalledNext` flag. -/
def runNextCalls (flag : Bool) : List (List JSVal) → Bool × List (List JSVal) × Nat
  | [] => (flag, [], 0)
  | c :: cs =>
      let r1 := wrappedNext flag c
      let r2 := runNextCalls r1.1 cs
      (r2.1, r1.2.1 ++ r2.2.1, r1.2.2 + r2.2.2)

/-- Result of the synchronous part of one wrapped-handler invocation. -/
structure SyncRes where
  flag : Bool
  delivered : List (List JSVal)
  warnings : Nat
  pending : Option PromiseOutcome
  retNow : Option JSVal
  deriving DecidableEq

/-- Synchronous phase of one invocation of `wrappedHandler` (lines 64-131,
up to the point where a returned promise would settle): the flag is reset
to `false` (line 65), the handler body runs making its explicit `next`
calls, and a synchronous throw is caught, normalized and delivered when the
flag is still unset (lines 121-131).  The incoming value of the shared
flag is ignored because line 65 unconditionally resets it. -/
def syncPhase (h : Invocation) : SyncRes :=
  let r := runNextCalls false h.nextCalls
  match h.outcome with
  | .retVal v => ⟨r.1, r.2.1, r.2.2, none, some v⟩
  | .retPromise p => ⟨r.1, r.2.1, r.2.2, some p, none⟩
  | .throws v =>
      if r.1 then ⟨r.1, r.2.1, r.2.2, none, some .vUndef⟩
      else
        let r2 := wrappedNext r.1 [normalizeSync v]
        ⟨r2.1, r.2.1 ++ r2.2.1, r.2.2 + r2.2.2, none, some .vUndef⟩

/-- Settlement of the promise returned by the handler, through the
`.catch` attached at lines 106-117: on rejection, when the flag is still
unset the normalized error goes through `wrappedNext` and the wrapper's
promise fulfills with `undefined`; when the flag is already set the
rejection is swallowed.  Returns the new flag, the forwarded calls and the
outcome of the promise the wrapper returned. -/
def settlePhase (flag : Bool) (p : PromiseOutcome) :
    Bool × List (List JSVal) × PromiseOutcome :=
  match p with
  | .fulfilled v => (flag, [], .fulfilled v)
  | .rejected v =>
      if flag then (flag, [], .fulfilled .vUndef)
      else
        let r := wrappedNext flag [normalizeAsync v]
        (r.1, r.2.1, .fulfilled .vUndef)

/-- What one call of the wrapped handler returns to its caller. -/
inductive RetShape where
  | value (v : JSVal)
  | promise (p : PromiseOutcome)
  deriving DecidableEq

/-- Observable result of one call of the wrapped handler. -/
structure CallResult where
  invoked : Bool
  delivered : List (List JSVal)
  warnings : Nat
  diagErrors : Nat
  escaped : Bool
  ret : RetShape
  deriving DecidableEq

/-- One complete invocation of the wrapped handler in isolation (no other
invocation interleaved between its synchronous phase and the settlement of
its promise): synchronous phase, then settlement of the returned promise
if there is one.  `escaped` records whether an exception escaped the
wrapper. -/
def runInvocation (h : Invocation) : CallResult :=
  let s := syncPhase h
  match s.pending with
  | none =>
      { invoked := true, delivered := s.delivered, warnings := s.warnings,
        diagErrors := 0, escaped := false,
        ret := .value (s.retNow.getD .vUndef) }
  | some p =>
      let r := settlePhase s.flag p
      { invoked := true, delivered := s.delivered ++ r.2.1,
        warnings := s.warnings, diagErrors := 0, escaped := false,
        ret := .promise r.2.2 }

/-- One call of the wrapped handler as seen from outside, including the
entry checks of lines 67-84: the argument count against the original's
declared arity, and the requirement that the last supplied argument be
callable. -/
structure WrapperCall where
  suppliedArgs : Nat
  expectedArgCount : Nat
  lastIsFunction : Bool
  handler : Invocation
  deriving DecidableEq

/-- Full model of `wrappedHandler` (lines 60-131): an insufficient argument
count emits a diagnostic but the call proceeds; a non-callable last
argument emits a diagnostic and aborts before invoking the original
(lines 77-84, plain `return`). -/
def wrappedHandlerCall (c : WrapperCall) : CallResult :=
  let arityDiags := if c.suppliedArgs < c.expectedArgCount then 1 else 0
  if c.lastIsFunction then
    let r := runInvocation c.handler
    { r with diagErrors := r.diagErrors + arityDiags }
  else
    { invoked := false, delivered := [], warnings := 0,
      diagErrors := arityDiags + 1, escaped := false, ret := .value .vUndef }

/-- Two invocations A and B of the same wrapped handler, interleaved on the
event loop as the shared closure variable `hasCalledNext` (line 56)
dictates: A runs its synchronous phase, then B runs its synchronous phase
(unconditionally resetting the shared flag, line 65), then A's pending
promise settles, then B's.  Returns the calls forwarded to A's and to B's
original continuations. -/
def runInterleaved (a b : Invocation) :
    List (List JSVal) × List (List JSVal) :=
  let sa := syncPhase a
  let sb := syncPhase b
  match sa.pending with
  | none =>
      match sb.pending with
      | none => (sa.delivered, sb.delivered)
      | some pb =>
          let rb := settlePhase sb.flag pb
          (sa.delivered, sb.delivered ++ rb.2.1)
  | some pa =>
      let ra := settlePhase sb.flag pa
      match sb.pending with
      | none => (sa.delivered ++ ra.2.1, sb.delivered)
      | some pb =>
          let rb := settlePhase ra.1 pb
          (sa.delivered ++ ra.2.1, sb.delivered ++ rb.2.1)

/-- A JavaScript callable as the wrapping layer inspects it: its `name`,
its declared arity (`length`) and whether it carries a `prototype` whose
`typeof` is `"object"` (true for a function declared with the `function`
keyword or a class, false for an arrow function or a method). -/
structure FuncVal where
  name : String
  length : Nat
  protoIsObject : Bool
  deriving DecidableEq

/-- Name and arity metadata `wrapHandler` installs on the wrapper
(lines 59 and 134-148): the name is `originalName = fn.name || "handler"`
with the `wrapped_` marker in front, the `length` is copied from the
original.  The wrapper itself is a function expression declared with the
`function` keyword, so it carries an object-typed `prototype`. -/
def wrapHandlerMeta (f : FuncVal) : FuncVal :=
  { name := "wrapped_" ++ (if f.name = "" then "handler" else f.name),
    length := f.length,
    protoIsObject := true }

/-- A property descriptor on a prototype level, as `processPrototype`
classifies it (lines 213-216): a data property holding a callable, a data
property holding a non-callable value, or an accessor (getter/setter,
whose descriptor has no `value`).  `defineFails` records whether replacing
this property via `Object.defineProperty` throws (the failure the
`try`/`catch` of lines 217-234 guards against). -/
inductive Descr where
  | dataFn (f : FuncVal) (defineFails : Bool)
  | dataVal (v : JSVal)
  | accessor
  deriving DecidableEq

/-- One level of a prototype chain: its own properties, in the order
`Object.getOwnPropertyNames` yields them (own property keys are distinct). -/
structure Level where
  props : List (String × Descr)
  deriving DecidableEq

/-- The member loop of `processPrototype` (lines 209-236): the
`constructor` key is skipped, a data property holding a callable is
replaced by its wrapped form unless the replacement throws (in which case
the error is logged and the member left as it was), and every other
property is left untouched. -/
def processProps : List (String × Descr) → List (String × Descr)
  | [] => []
  | (k, d) :: rest =>
      if k = "constructor" then (k, d) :: processProps rest
      else
        match d with
        | .dataFn f b =>
            (if b then (k, Descr.dataFn f b)
             else (k, Descr.dataFn (wrapHandlerMeta f) b)) :: processProps rest
        | _ => (k, d) :: processProps rest

/-- Processing of one whole prototype level. -/
def processLevel (lv : Level) : Level :=
  ⟨processProps lv.props⟩

/-- A universe of prototype objects for `wrapControllerClass`: objects are
identified by numbers below `size`, `protoOf` is `Object.getPrototypeOf`
(`none` models a `null` prototype), `objId` identifies `Object.prototype`,
and `levelOf` gives each object's own properties. -/
structure ProtoWorld where
  size : Nat
  protoOf : Nat → Option Nat
  objId : Nat
  levelOf : Nat → Level

/-- The chain traversal of `processPrototype` (lines 200-243): stop when
the current level is already in the visited set (`processedPrototypes`,
line 198), otherwise mark it visited, process it, and recurse on its
parent when that parent exists and is not `Object.prototype`
(lines 238-242).  Returns the visited levels in processing order and
whether the traversal completed within the given fuel; the source has no
fuel, so termination is the statement that enough fuel always exists. -/
def processChain (w : ProtoWorld) : Nat → List Nat → Nat → List Nat × Bool
  | 0, _, _ => ([], false)
  | fuel + 1, visited, p =>
      if p ∈ visited then ([], true)
      else
        let rest :=
          match w.protoOf p with
          | some parent =>
              if parent = w.objId then ([], true)
              else processChain w fuel (p :: visited) parent
          | none => ([], true)
        (p :: rest.1, rest.2)

/-- The effect of `wrapControllerClass` on the levels (lines 198-247):
the chain starting at the constructor's prototype is traversed, and every
level the traversal visits has its members processed exactly once.  The
visited-set bounds the traversal depth by the number of distinct objects,
so fuel `w.size + 1` suffices (proved below). -/
def wrapBundle (w : ProtoWorld) (start : Nat) : ProtoWorld :=
  let visited := (processChain w (w.size + 1) [] start).1
  { w with levelOf := fun p =>
      if p ∈ visited then processLevel (w.levelOf p) else w.levelOf p }

/-- The single argument of `catchAsync`, classified the way the dispatch
code inspects it: `null`, `undefined`, a callable, or some other
non-callable value. -/
inductive Target where
  | tNull
  | tUndef
  | tFunc (f : FuncVal)
  | tOther (v : JSVal)
  deriving DecidableEq

/-- Which path `catchAsync` takes. -/
inductive DispatchResult where
  | passthrough (t : Target)
  | classPath (f : FuncVal)
  | handlerPath (f : FuncVal)
  | typeError
  deriving DecidableEq

/-- The dual-mode dispatch of `catchAsync` (lines 334-359): `null` and
`undefined` pass through unchanged (`target == null`, line 338); a
function with an object-typed `prototype` goes to `wrapControllerClass`
(lines 345-351); any other function goes to `wrapHandler` (lines 354-356);
everything else raises a `TypeError` (line 358). -/
def catchAsyncDispatch : Target → DispatchResult
  | .tNull => .passthrough .tNull
  | .tUndef => .passthrough .tUndef
  | .tFunc f => if f.protoIsObject then .classPath f else .handlerPath f
  | .tOther _ => .typeError

/-- A three-object world whose prototype chain 0 → 1 → 0 is cyclic;
object 2 plays the role of `Object.prototype`. -/
def cycWorld : ProtoWorld :=
  ⟨3, fun p => if p = 0 then some 1 else if p = 1 then some 0 else none,
   2, fun _ => ⟨[]⟩⟩

/-- A two-object world: object 0 is the `prototype` of a function declared
with the `function` keyword — its only own member is `constructor`,
holding the function itself — and its parent, object 1, is
`Object.prototype`. -/
def plainFnWorld : ProtoWorld :=
  ⟨2, fun _ => some 1, 1,
   fun _ => ⟨[("constructor", Descr.dataFn ⟨"myFn", 3, true⟩ false)]⟩⟩

/-! Basic lemmas about the continuation guard. -/

/-- Once `hasCalledNext` is set, every further explicit call is dropped
with a warning and nothing more reaches the original continuation. -/
theorem runNextCalls_true (cs : List (List JSVal)) :
    runNextCalls true cs = (true, [], cs.length) := by
  induction cs with
  | nil => rfl
  | cons c cs ih => simp [runNextCalls, wrappedNext, ih, Nat.add_comm]

/-- A first explicit call is forwarded verbatim and sets the flag; the
remaining calls are all dropped. -/
theorem runNextCalls_cons_false (c : List JSVal) (cs : List (List JSVal)) :
    runNextCalls false (c :: cs) = (true, [c], cs.length) := by
  simp [runNextCalls, wrappedNext, runNextCalls_true]

/-- The flag is still unset after the explicit calls only when there were
no explicit calls at all. -/
theorem runNextCalls_fst_false {cs : List (List JSVal)}
    (hf : (runNextCalls false cs).1 = false) : cs = [] := by
  cases cs with
  | nil => rfl
  | cons c cs => rw [runNextCalls_cons_false] at hf; exact absurd hf (by simp)

/-- C1: in a single invocation in which the handler explicitly calls the
continuation with an error and subsequently throws or rejects, the guarded
continuation fires exactly once, carrying the first error; every later
delivery attempt in that invocation is dropped and nothing escapes. -/
theorem next_then_failure_delivers_first_only
    (e : JSVal) (rest : List (List JSVal)) (h : Invocation)
    (_he : isErrorVal e = true)
    (hc : h.nextCalls = [e] :: rest)
    (hout : (∃ v, h.outcome = .throws v) ∨
            (∃ v, h.outcome = .retPromise (.rejected v))) :
    (runInvocation h).delivered = [[e]] ∧ (runInvocation h).escaped = false := by
  rcases hout with ⟨v, hv⟩ | ⟨v, hv⟩ <;>
    simp [runInvocation, syncPhase, hc, hv, runNextCalls_cons_false, settlePhase]

/-- C1 witness: the spec's concrete scenario, `next(new Error("a"))`
followed by `throw new Error("b")`, delivers exactly `Error("a")`. -/
theorem next_then_failure_delivers_first_only_witness :
    (runInvocation ⟨[[JSVal.vError "a"]], .throws (JSVal.vError "b")⟩).delivered
      = [[JSVal.vError "a"]] :=
  (next_then_failure_delivers_first_only (JSVal.vError "a") []
      ⟨[[JSVal.vError "a"]], .throws (JSVal.vError "b")⟩ rfl rfl
      (Or.inl ⟨JSVal.vError "b", rfl⟩)).1

/-- C3: when the original returns a promise that rejects and the guarded
continuation has not fired by settlement time, the wrapper delivers the
rejection through the guarded continuation — an `Error` unchanged, any
other value wrapped into an `Error` whose message contains its string
form — and the wrapper's own promise fulfills with `undefined`. -/
theorem rejected_promise_delivers_normalized
    (h : Invocation) (v : JSVal)
    (hout : h.outcome = .retPromise (.rejected v))
    (hflag : (runNextCalls false h.nextCalls).1 = false) :
    (runInvocation h).delivered
        = [[if isErrorVal v then v
            else .vError ("Non-Error thrown/rejected: " ++ jsString v)]] ∧
    (runInvocation h).ret = .promise (.fulfilled .vUndef) ∧
    (runInvocation h).escaped = false := by
  have hc := runNextCalls_fst_false hflag
  simp [runInvocation, syncPhase, hc, hout, runNextCalls, settlePhase,
    wrappedNext, normalizeAsync]

/-- C3 witness: rejecting with the plain string `"boom"` delivers an
`Error` whose message contains `"boom"`, and the wrapper's promise
fulfills with `undefined`. -/
theorem rejected_promise_delivers_normalized_witness :
    (runInvocation ⟨[], .retPromise (.rejected (JSVal.vStr "boom"))⟩).delivered
      = [[JSVal.vError "Non-Error thrown/rejected: boom"]] ∧
    (runInvocation ⟨[], .retPromise (.rejected (JSVal.vStr "boom"))⟩).ret
      = .promise (.fulfilled .vUndef) := by
  have h := rejected_promise_delivers_normalized
      ⟨[], .retPromise (.rejected (JSVal.vStr "boom"))⟩ (JSVal.vStr "boom") rfl rfl
  exact ⟨by simpa [isErrorVal, jsString] using h.1, h.2.1⟩

/-- C4: a synchronous throw never escapes the wrapper (the call returns
`undefined` normally), and when the guarded continuation has not fired the
thrown value is delivered, non-`Error` values normalized to an `Error`
whose message contains their string form. -/
theorem sync_throw_swallowed
    (h : Invocation) (v : JSVal) (hout : h.outcome = .throws v) :
    (runInvocation h).escaped = false ∧
    (runInvocation h).ret = .value .vUndef ∧
    ((runNextCalls false h.nextCalls).1 = false →
      (runInvocation h).delivered
        = [[if isErrorVal v then v
            else .vError ("Non-Error thrown synchronously: " ++ jsString v)]]) := by
  cases hb : (runNextCalls false h.nextCalls).1 with
  | false =>
      have hc := runNextCalls_fst_false hb
      simp [runInvocation, syncPhase, hc, hout, runNextCalls, wrappedNext,
        normalizeSync]
  | true =>
      simp [runInvocation, syncPhase, hout, hb]

/-- C4 witness: throwing the plain string `"oops"` is swallowed, the call
returns `undefined`, and an `Error` containing `"oops"` is delivered. -/
theorem sync_throw_swallowed_witness :
    (runInvocation ⟨[], .throws (JSVal.vStr "oops")⟩).escaped = false ∧
    (runInvocation ⟨[], .throws (JSVal.vStr "oops")⟩).delivered
      = [[JSVal.vError "Non-Error thrown synchronously: oops"]] := by
  have h := sync_throw_swallowed ⟨[], .throws (JSVal.vStr "oops")⟩
      (JSVal.vStr "oops") rfl
  exact ⟨h.1, by simpa [isErrorVal, jsString] using h.2.2 rfl⟩

/-- C9: when the trailing argument of a wrapped-handler call is not
callable, the call aborts: the original is never invoked, nothing is
delivered to any continuation, no exception escapes, and at least one
diagnostic is emitted. -/
theorem bad_next_aborts (c : WrapperCall) (hl : c.lastIsFunction = false) :
    (wrappedHandlerCall c).invoked = false ∧
    (wrappedHandlerCall c).delivered = [] ∧
    1 ≤ (wrappedHandlerCall c).diagErrors ∧
    (wrappedHandlerCall c).escaped = false := by
  refine ⟨?_, ?_, ?_, ?_⟩ <;> simp [wrappedHandlerCall, hl]

/-- C9 witness: a call with three supplied arguments whose last is not a
function. -/
theorem bad_next_aborts_witness :
    (wrappedHandlerCall ⟨3, 3, false, ⟨[], .retVal .vUndef⟩⟩).invoked = false ∧
    (wrappedHandlerCall ⟨3, 3, false, ⟨[], .retVal .vUndef⟩⟩).delivered = [] :=
  ⟨(bad_next_aborts ⟨3, 3, false, ⟨[], .retVal .vUndef⟩⟩ rfl).1,
   (bad_next_aborts ⟨3, 3, false, ⟨[], .retVal .vUndef⟩⟩ rfl).2.1⟩

/-- C7: the entry point passes `null` and `undefined` through unchanged,
and raises a `TypeError` on every non-null non-callable value, such as the
number 42. -/
theorem entry_point_dispatch :
    catchAsyncDispatch .tNull = .passthrough .tNull ∧
    catchAsyncDispatch .tUndef = .passthrough .tUndef ∧
    catchAsyncDispatch (.tOther (.vNum 42)) = .typeError ∧
    ∀ v : JSVal, catchAsyncDispatch (.tOther v) = .typeError :=
  ⟨rfl, rfl, rfl, fun _ => rfl⟩

/-- C8 counterexample: for an anonymous callable (empty `name`), the
wrapper's name is `"wrapped_handler"`, not the empty name with the
`"wrapped_"` marker in front, so name preservation fails as stated. -/
theorem wrap_name_counterexample :
    ¬ ((wrapHandlerMeta ⟨"", 3, false⟩).length = 3 ∧
       (wrapHandlerMeta ⟨"", 3, false⟩).name
         = "wrapped_" ++ FuncVal.name ⟨"", 3, false⟩) := by
  decide

/-- C8 amended: `wrap(f)` keeps `f`'s declared arity, and its name is
`f`'s name — with the fallback `"handler"` when that name is empty —
with the fixed `"wrapped_"` marker in front. -/
theorem wrap_name_amended (f : FuncVal) :
    (wrapHandlerMeta f).length = f.length ∧
    (wrapHandlerMeta f).name
      = "wrapped_" ++ (if f.name = "" then "handler" else f.name) :=
  ⟨rfl, rfl⟩

/-- C2: the continuation-fired flag lives in the `wrapHandler` closure and
is shared by all invocations of the same wrapped handler.  With invocation
A returning a promise rejecting with `Error("x")` and invocation B
interleaved before that rejection settles, B's explicit continuation call
sets the shared flag and A's rejection is silently dropped: A's
continuation receives nothing, whereas the same invocation run in
isolation delivers `Error("x")`. -/
theorem shared_flag_suppresses_other_invocation :
    (runInterleaved ⟨[], .retPromise (.rejected (JSVal.vError "x"))⟩
        ⟨[[JSVal.vUndef]], .retVal .vUndef⟩).1 = [] ∧
    (runInvocation ⟨[], .retPromise (.rejected (JSVal.vError "x"))⟩).delivered
      = [[JSVal.vError "x"]] :=
  ⟨rfl, rfl⟩

/-- A list of distinct naturals all below `n` has at most `n` elements. -/
theorem nodup_lt_length_le {l : List Nat} {n : Nat}
    (hnd : l.Nodup) (hb : ∀ v ∈ l, v < n) : l.length ≤ n := by
  have hsub : l.toFinset ⊆ Finset.range n := by
    intro x hx
    rw [List.mem_toFinset] at hx
    exact Finset.mem_range.mpr (hb x hx)
  have hcard := Finset.card_le_card hsub
  rwa [List.toFinset_card_of_nodup hnd, Finset.card_range] at hcard

/-- Traversal step: an already-visited level stops the walk at once. -/
theorem processChain_visited (w : ProtoWorld) (fuel : Nat)
    (visited : List Nat) (p : Nat) (hmem : p ∈ visited) :
    processChain w (fuel + 1) visited p = ([], true) := by
  simp [processChain, hmem]

/-- Traversal step: a fresh level with a `null` parent is processed and
the walk stops. -/
theorem processChain_nullpar (w : ProtoWorld) (fuel : Nat)
    (visited : List Nat) (p : Nat) (hmem : p ∉ visited)
    (hpar : w.protoOf p = none) :
    processChain w (fuel + 1) visited p = ([p], true) := by
  simp [processChain, hmem, hpar]

/-- Traversal step: a fresh level whose parent is `Object.prototype` is
processed and the walk stops without processing the parent. -/
theorem processChain_objpar (w : ProtoWorld) (fuel : Nat)
    (visited : List Nat) (p : Nat) (parent : Nat) (hmem : p ∉ visited)
    (hpar : w.protoOf p = some parent) (hpo : parent = w.objId) :
    processChain w (fuel + 1) visited p = ([p], true) := by
  simp [processChain, hmem, hpar, hpo]

/-- Traversal step: a fresh level with an ordinary parent is processed and
the walk recurses on the parent with the level marked visited. -/
theorem processChain_step (w : ProtoWorld) (fuel : Nat)
    (visited : List Nat) (p : Nat) (parent : Nat) (hmem : p ∉ visited)
    (hpar : w.protoOf p = some parent) (hpo : parent ≠ w.objId) :
    processChain w (fuel + 1) visited p =
      (p :: (processChain w fuel (p :: visited) parent).1,
       (processChain w fuel (p :: visited) parent).2) := by
  simp [processChain, hmem, hpar, hpo]

/-- Soundness of the visited-set traversal: starting from any level below
`w.size` that is not `Object.prototype`, with enough fuel left relative to
the levels already visited, the traversal completes, processes pairwise
distinct levels none of which was already visited, and never processes
`Object.prototype`. -/
theorem processChain_complete (w : ProtoWorld)
    (hclosed : ∀ p q, w.protoOf p = some q → q < w.size) :
    ∀ fuel (visited : List Nat) (p : Nat),
      visited.Nodup → (∀ v ∈ visited, v < w.size) →
      p < w.size → p ≠ w.objId →
      w.size + 1 ≤ visited.length + fuel →
      (processChain w fuel visited p).2 = true ∧
      ((processChain w fuel visited p).1 ++ visited).Nodup ∧
      w.objId ∉ (processChain w fuel visited p).1 := by
  intro fuel
  induction fuel with
  | zero =>
      intro visited p hnd hb _hp _hobj hfuel
      exact absurd hfuel (by have := nodup_lt_length_le hnd hb; omega)
  | succ fuel ih =>
      intro visited p hnd hb hp hobj hfuel
      by_cases hmem : p ∈ visited
      · rw [processChain_visited w fuel visited p hmem]
        exact ⟨rfl, by simpa using hnd, by simp⟩
      · have hnd' : (p :: visited).Nodup := List.nodup_cons.mpr ⟨hmem, hnd⟩
        cases hpar : w.protoOf p with
        | none =>
            rw [processChain_nullpar w fuel visited p hmem hpar]
            exact ⟨rfl, hnd', by simpa using Ne.symm hobj⟩
        | some parent =>
            by_cases hpo : parent = w.objId
            · rw [processChain_objpar w fuel visited p parent hmem hpar hpo]
              exact ⟨rfl, hnd', by simpa using Ne.symm hobj⟩
            · have hb' : ∀ v ∈ p :: visited, v < w.size := by
                intro v hv
                rcases List.mem_cons.mp hv with h | h
                · simpa [h] using hp
                · exact hb v h
              have hfuel' : w.size + 1 ≤ (p :: visited).length + fuel := by
                simp only [List.length_cons]; omega
              have hrec := ih (p :: visited) parent hnd' hb'
                (hclosed p parent hpar) hpo hfuel'
              rw [processChain_step w fuel visited p parent hmem hpar hpo]
              refine ⟨hrec.1, ?_, ?_⟩
              · have hperm :
                    ((processChain w fuel (p :: visited) parent).1
                        ++ p :: visited).Perm
                      (p :: ((processChain w fuel (p :: visited) parent).1
                        ++ visited)) := List.perm_middle
                exact hperm.nodup_iff.mp hrec.2.1
              · intro hcon
                rcases List.mem_cons.mp hcon with h | h
                · exact hobj h.symm
                · exact hrec.2.2 h

/-- C5: for every bundle whose prototype chain stays inside a finite
universe of levels, the traversal of `wrapControllerClass` — even on a
cyclic chain or one reaching a level twice — completes within fuel
`size + 1`, processes pairwise distinct levels (no double processing), and
never processes `Object.prototype`. -/
theorem chain_traversal_safe (w : ProtoWorld) (start : Nat)
    (hclosed : ∀ p q, w.protoOf p = some q → q < w.size)
    (hstart : start < w.size) (hobj : start ≠ w.objId) :
    (processChain w (w.size + 1) [] start).2 = true ∧
    (processChain w (w.size + 1) [] start).1.Nodup ∧
    w.objId ∉ (processChain w (w.size + 1) [] start).1 := by
  have h := processChain_complete w hclosed (w.size + 1) [] start
      (by simp) (by simp) hstart hobj (by simp)
  exact ⟨h.1, by simpa using h.2.1, h.2.2⟩

/-- C5 witness: on the cyclic chain 0 → 1 → 0 the traversal terminates,
processes distinct levels only, and skips `Object.prototype`. -/
theorem chain_traversal_safe_witness :
    (processChain cycWorld (cycWorld.size + 1) [] 0).2 = true ∧
    (processChain cycWorld (cycWorld.size + 1) [] 0).1.Nodup ∧
    cycWorld.objId ∉ (processChain cycWorld (cycWorld.size + 1) [] 0).1 := by
  have hclosed : ∀ p q, cycWorld.protoOf p = some q → q < cycWorld.size := by
    intro p q hpq
    show q < 3
    by_cases h0 : p = 0
    · simp [cycWorld, h0] at hpq; omega
    · by_cases h1 : p = 1
      · simp [cycWorld, h0, h1] at hpq; omega
      · simp [cycWorld, h0, h1] at hpq
  exact chain_traversal_safe cycWorld 0 hclosed (by decide) (by decide)

/-- processProps keeps exactly as many properties as it is given: members
are replaced in place, never added or removed. -/
theorem processProps_length (props : List (String × Descr)) :
    (processProps props).length = props.length := by
  induction props with
  | nil => rfl
  | cons p rest ih =>
      obtain ⟨k, d⟩ := p
      by_cases hk : k = "constructor"
      · simp [processProps, hk, ih]
      · cases d <;> simp [processProps, hk, ih]

/-- C6: after processing a level, the property at each position holding a
plain callable under a non-`constructor` key has been replaced, exactly
once, by its `wrapHandler`-wrapped form when the replacement succeeds, and
is left unwrapped when the replacement throws — independently of whether
any other member's replacement fails — while the level keeps the same
number of members. -/
theorem members_wrapped_in_place (props : List (String × Descr))
    (i : Nat) (k : String) (f : FuncVal) (b : Bool)
    (hp : props.get? i = some (k, .dataFn f b)) (hk : k ≠ "constructor") :
    (processProps props).length = props.length ∧
    (processProps props).get? i
      = some (k, if b then Descr.dataFn f b
                 else Descr.dataFn (wrapHandlerMeta f) b) := by
  refine ⟨processProps_length props, ?_⟩
  induction props generalizing i with
  | nil => simp [List.get?] at hp
  | cons p rest ih =>
      obtain ⟨k0, d0⟩ := p
      cases i with
      | zero =>
          simp only [List.get?] at hp
          obtain ⟨h1, h2⟩ := Prod.mk.injEq .. ▸ Option.some.injEq .. ▸ hp
          subst h1; subst h2
          cases b <;> simp [processProps, hk, List.get?]
      | succ n =>
          simp only [List.get?] at hp
          have hrest := ih n hp
          by_cases hk0 : k0 = "constructor"
          · simpa [processProps, hk0, List.get?] using hrest
          · cases d0 <;> simpa [processProps, hk0, List.get?] using hrest

/-- C6 witness: in a level where the first member's replacement throws,
the second member is still wrapped. -/
theorem members_wrapped_in_place_witness :
    (processProps [("bad", Descr.dataFn ⟨"g", 3, true⟩ true),
                   ("good", Descr.dataFn ⟨"f", 3, true⟩ false)]).get? 1
      = some ("good", Descr.dataFn (wrapHandlerMeta ⟨"f", 3, true⟩) false) := by
  have h := (members_wrapped_in_place
      [("bad", Descr.dataFn ⟨"g", 3, true⟩ true),
       ("good", Descr.dataFn ⟨"f", 3, true⟩ false)]
      1 "good" ⟨"f", 3, true⟩ false rfl (by decide)).2
  simpa using h

/-- C10: a function declared with the `function` keyword carries an
object-typed `prototype` whose only own member is `constructor`, so the
entry point sends it down the class-wrapping path, which returns the very
same function with every level of its world left unchanged: nothing gets
wrapped and its failures are not intercepted. -/
theorem plain_function_takes_class_path (f : FuncVal) (w : ProtoWorld)
    (start : Nat) (d : Descr)
    (hproto : f.protoIsObject = true)
    (hlv : w.levelOf start = ⟨[("constructor", d)]⟩)
    (hpar : w.protoOf start = some w.objId) :
    catchAsyncDispatch (.tFunc f) = .classPath f ∧
    ∀ p, (wrapBundle w start).levelOf p = w.levelOf p := by
  constructor
  · simp [catchAsyncDispatch, hproto]
  · intro p
    have hchain : (processChain w (w.size + 1) [] start).1 = [start] := by
      simp [processChain, hpar]
    simp only [wrapBundle, hchain]
    by_cases hps : p = start
    · subst hps
      simp [processLevel, hlv, processProps]
    · simp [hps]

/-- C10 witness: a concrete ordinary function and its prototype world. -/
theorem plain_function_takes_class_path_witness :
    catchAsyncDispatch (.tFunc ⟨"myFn", 3, true⟩)
      = .classPath ⟨"myFn", 3, true⟩ ∧
    (wrapBundle plainFnWorld 0).levelOf 0 = plainFnWorld.levelOf 0 := by
  have h := plain_function_takes_class_path ⟨"myFn", 3, true⟩ plainFnWorld 0
      (Descr.dataFn ⟨"myFn", 3, true⟩ false) rfl rfl rfl
  exact ⟨h.1, h.2 0⟩

end CatchAsync
